import Mathlib

/-!
Verification development for the statekit layered, content-addressed
filesystem store (engine `StateKit`, catalog `Store`, snapshotting
subsystem `Snapshot`).

The JavaScript source is shallowly embedded: the persistent index
(`index.json`), the blob store and the working directory become explicit
state records, and every engine operation becomes a pure function of that
state.  The subprocess runner is a parameter (`exec`) mapping a working
directory to the directory it leaves behind plus an exit status, per the
spec's runner contract.  External library facilities (the `crypto` digest,
the `tar` codec, JS string utilities) are modelled by executable Lean
functions documented at their definitions.
-/

/-- Modelled from the spec: byte encoding of a JS string ("UTF-8 JSON
document", member paths and JSON text are byte sequences).  The model maps
each character to its code point, which agrees with UTF-8 on ASCII data. -/
def strBytes (s : String) : List Nat := s.data.map Char.toNat

/-- Modelled from the spec: "Hashing. SHA-256, lowercase hex, 64 chars" —
the digest supplied by the external `crypto` library.  The compression
function itself is outside the repository; the model replaces it by a
concrete injective stand-in (a readable rendering of the input bytes), and
no theorem below relies on any property of the real compression function
beyond it being a fixed pure function of the input bytes. -/
def sha256 (data : List Nat) : String :=
  "sha256:" ++ String.join (data.map (fun b => Nat.repr b ++ ";"))

/-- Lowercase hex digit, used by the JSON control-character escape. -/
def hexDigit (n : Nat) : Char :=
  if n < 10 then Char.ofNat (48 + n) else Char.ofNat (87 + n)

/-- Four lowercase hex digits, as in the JSON escape `\u00XX`. -/
def hex4 (n : Nat) : String :=
  String.mk [hexDigit (n / 4096 % 16), hexDigit (n / 256 % 16),
             hexDigit (n / 16 % 16), hexDigit (n % 16)]

/-- Modelled from the spec: "standard string escaping" of `JSON.stringify`
for one character — `"` and `\` are backslash-escaped, the named control
escapes are used where they exist, other control characters become
`\u00XX`, and every other character is passed through. -/
def jsonEscapeChar (c : Char) : String :=
  if c == '"' then "\\\""
  else if c == '\\' then "\\\\"
  else if c == '\x08' then "\\b"
  else if c == '\t' then "\\t"
  else if c == '\n' then "\\n"
  else if c == '\x0c' then "\\f"
  else if c == '\r' then "\\r"
  else if c.toNat < 32 then "\\u" ++ hex4 c.toNat
  else String.singleton c

/-- JSON escaping of a whole string (body only, without the quotes). -/
def jsonEscape (s : String) : String := String.join (s.data.map jsonEscapeChar)

/-- A JSON string literal: quoted, escaped. -/
def jsonQuote (s : String) : String := "\"" ++ jsonEscape s ++ "\""

/-- Comma-join, as `JSON.stringify` separates members and elements. -/
def joinComma : List String → String
  | [] => ""
  | [x] => x
  | x :: y :: rest => x ++ "," ++ joinComma (y :: rest)

/-- Modelled from the spec: `JSON.stringify` on an array of strings (the
deleted-path list), no whitespace. -/
def jsonStringifyStrList (xs : List String) : String :=
  "[" ++ joinComma (xs.map jsonQuote) ++ "]"

/-- One member of a flat JSON object whose values are strings or null. -/
def jsonMember : String × Option String → String
  | (k, some v) => jsonQuote k ++ ":" ++ jsonQuote v
  | (k, none) => jsonQuote k ++ ":null"

/-- Modelled from the spec: `JSON.stringify` on a flat object with
string-or-null values, members in insertion order, no whitespace. -/
def jsonStringifyFlatObj (fields : List (String × Option String)) : String :=
  "\x7b" ++ joinComma (fields.map jsonMember) ++ "\x7d"

/-- Boolean prefix test on character lists. -/
def charListIsPrefix : List Char → List Char → Bool
  | [], _ => true
  | _ :: _, [] => false
  | c :: cs, d :: ds => c == d && charListIsPrefix cs ds

/-- Modelled from the spec: JS `String.prototype.startsWith` — `strStartsWith s p`
is true when `p` is a prefix of `s`. -/
def strStartsWith (s p : String) : Bool := charListIsPrefix p.data s.data

/-- Lexicographic order on character lists (code-point order). -/
def charListLe : List Char → List Char → Bool
  | [], _ => true
  | _ :: _, [] => false
  | c :: cs, d :: ds => if c == d then charListLe cs ds else decide (c.toNat < d.toNat)

/-- Modelled from the spec: the path ordering of the walk ("sorted by path,
lexicographic"), i.e. JS default string comparison (code-unit order, which
agrees with code-point order on the BMP). -/
def strLe (a b : String) : Bool := charListLe a.data b.data

/-! ## Filesystem model

The working directory and reconstructed layer states are finite maps from
relative paths to filesystem entries, represented as association lists.
These model the `fs` module's view of the directory tree as used by
`Snapshot._walk` / `_state`: regular files (content bytes, POSIX mode),
directories and symbolic links. -/

/-- One directory entry as fingerprinted by `Snapshot._state`. -/
inductive FsEntry where
  | file (content : List Nat) (mode : Nat)
  | dir (mode : Nat)
  | symlink (target : String) (mode : Nat)
deriving DecidableEq

/-- A directory tree: relative path (forward-slash separated) to entry. -/
abbrev Fs := List (String × FsEntry)

/-- A decoded TAR archive: the entries in member order. -/
abbrev Archive := List (String × FsEntry)

/-- Lookup of a path in a directory tree. -/
def fsGet (fs : Fs) (p : String) : Option FsEntry :=
  match fs with
  | [] => none
  | kv :: rest => if kv.1 = p then some kv.2 else fsGet rest p

/-- Path membership in a directory tree. -/
def fsHas (fs : Fs) (p : String) : Bool := (fsGet fs p).isSome

/-- Writing an entry at a path: overwrite in place, or append as a new
entry — the effect of `tar.extract` materializing one member. -/
def fsSet (fs : Fs) (p : String) (e : FsEntry) : Fs :=
  match fs with
  | [] => [(p, e)]
  | kv :: rest => if kv.1 = p then (p, e) :: rest else kv :: fsSet rest p e

/-- Insertion of one entry into a path-sorted list (`strLe` order). -/
def insertByPath (kv : String × FsEntry) : Fs → Fs
  | [] => [kv]
  | kv' :: rest =>
    if strLe kv.1 kv'.1 then kv :: kv' :: rest else kv' :: insertByPath kv rest

/-- Model of `Snapshot._walk`: every entry of the tree, sorted by path
(`results.sort()` in the source). -/
def sortByPath (fs : Fs) : Fs := fs.foldr insertByPath []

/-- Model of `Snapshot._state`'s per-entry fingerprint: SHA-256 of the content for
regular files, the literal `"dir"` for directories, `"link:" + target` for
symbolic links. -/
def fingerprint : FsEntry → String
  | .file c _ => sha256 c
  | .dir _ => "dir"
  | .symlink t _ => "link:" ++ t

/-- The POSIX mode bits recorded alongside the fingerprint. -/
def entryMode : FsEntry → Nat
  | .file _ m => m
  | .dir m => m
  | .symlink _ m => m

/-- Model of `Snapshot._state`: walk the tree in sorted order and record
`(relative path, fingerprint, mode)` per entry. -/
def stateOf (fs : Fs) : List (String × String × Nat) :=
  (sortByPath fs).map (fun kv => (kv.1, fingerprint kv.2, entryMode kv.2))

/-- Lookup in a computed state map. -/
def stateGet (st : List (String × String × Nat)) (rel : String) : Option (String × Nat) :=
  (st.find? (fun e => e.1 == rel)).map (fun e => e.2)

/-- Modelled from the spec: serialization of one archive member by the
external `tar` library ("Portable USTAR... Stored metadata: path, mode,
entry type, symlink target").  The model keeps exactly that metadata and
serializes it with an entry-type tag; byte-exact USTAR framing is not
reproduced.  Every member serializes to a non-empty byte string. -/
def tarEntryBytes : String × FsEntry → List Nat
  | (p, .file content mode) => 0 :: p.length :: strBytes p ++ mode :: content.length :: content
  | (p, .dir mode) => 1 :: p.length :: strBytes p ++ [mode]
  | (p, .symlink target mode) => 2 :: p.length :: strBytes p ++ mode :: strBytes target

/-- Modelled from the spec: the byte string of a whole TAR archive,
members in the order the paths are given (`tar.create`); the empty
archive is the empty byte string (`Buffer.alloc(0)`). -/
def tarBytes (a : Archive) : List Nat := a.flatMap tarEntryBytes

/-! ## Index and blob store (`Store`) -/

/-- One layer record of `index.json`: `{hash, instruction, parent, time}`. -/
structure Layer where
  hash : String
  instruction : String
  parent : Option String
  time : Nat
deriving DecidableEq

/-- The persistent index document: head pointer, append-ordered layer
list, tag mapping (`index.tags`, an object in the source; absent tags are
the empty mapping). -/
structure Index where
  head : Option String
  layers : List Layer
  tags : List (String × String)
deriving DecidableEq

/-- Lookup of a blob by hash (`Store.get`; `none` models a missing file). -/
def blobGet (blobs : List (String × Archive)) (h : String) : Option Archive :=
  match blobs with
  | [] => none
  | kv :: rest => if kv.1 = h then some kv.2 else blobGet rest h

/-- Model of `Store.put`: write a blob under its hash (overwrites, idempotent). -/
def blobPut (blobs : List (String × Archive)) (h : String) (a : Archive) :
    List (String × Archive) :=
  match blobs with
  | [] => [(h, a)]
  | kv :: rest => if kv.1 = h then (h, a) :: rest else kv :: blobPut rest h a

/-- Model of `Store.key`: the derived cache key,
`sha256(JSON.stringify({instruction, parent}))`. -/
def Store.key (instruction : String) (parent : Option String) : String :=
  sha256 (strBytes (jsonStringifyFlatObj [("instruction", some instruction), ("parent", parent)]))

/-- Model of `Store.find`: first layer in list order whose `(instruction, parent)`
pair has the same cache key. -/
def Store.find (idx : Index) (instruction : String) (parent : Option String) : Option Layer :=
  let k := Store.key instruction parent
  idx.layers.find? (fun l => Store.key l.instruction l.parent == k)

/-- Model of `Store.commit`: append the layer record and advance head. -/
def Store.commit (idx : Index) (hash instruction : String) (parent : Option String)
    (now : Nat) : Index :=
  { idx with
    layers := idx.layers ++ [{ hash := hash, instruction := instruction,
                               parent := parent, time := now }],
    head := some hash }

/-- Tag lookup (`index.tags[ref]`). -/
def tagLookup (tags : List (String × String)) (ref : String) : Option String :=
  (tags.find? (fun kv => kv.1 == ref)).map (fun kv => kv.2)

/-- The layer-list part of `StateKit._resolve`: first layer whose hash has
`ref` as a prefix, then first layer whose hash equals `ref`, else the
unresolved-ref failure (`none`). -/
def Store.resolveLayers (idx : Index) (ref : String) : Option (Option String) :=
  match idx.layers.find? (fun l => strStartsWith l.hash ref) with
  | some l => some (some l.hash)
  | none =>
    match idx.layers.find? (fun l => l.hash == ref) with
    | some l => some (some l.hash)
    | none => none

/-- Model of `StateKit._resolve`: a falsy (empty) ref resolves to `null`
(`some none`); a tag whose value is truthy wins; otherwise prefix then
exact match over the layer list; `none` models the thrown
`Cannot resolve ref` (`UnresolvedRef`) error. -/
def Store.resolve (idx : Index) (ref : String) : Option (Option String) :=
  if ref = "" then some none
  else
    match tagLookup idx.tags ref with
    | some v => if v = "" then Store.resolveLayers idx ref else some (some v)
    | none => Store.resolveLayers idx ref

/-- The `byHash` map of `Store.ancestry`: `new Map` retains the last
binding for a duplicated hash. -/
def byHash (layers : List Layer) (h : String) : Option Layer :=
  layers.reverse.find? (fun l => l.hash == h)

/-- The parent-chasing loop of `Store.ancestry`, with explicit fuel.  The
JS loop diverges on a cyclic parent graph; with fuel equal to the number
of layers the model agrees with the source on every acyclic index and
truncates instead of diverging on a cycle. -/
def ancestryFromFuel : Nat → List Layer → Option String → List Layer
  | 0, _, _ => []
  | _ + 1, _, none => []
  | fuel + 1, layers, some h =>
    match byHash layers h with
    | none => []
    | some l => ancestryFromFuel fuel layers l.parent ++ [l]

/-- The chain from the root to a given starting hash (root first). -/
def Store.ancestryFrom (idx : Index) (h : Option String) : List Layer :=
  ancestryFromFuel idx.layers.length idx.layers h

/-- Model of `Store.ancestry`: the chain from the root to `head`. -/
def Store.ancestry (idx : Index) : List Layer :=
  Store.ancestryFrom idx idx.head

/-! ## Snapshotting subsystem (`Snapshot`) -/

/-- Model of `Snapshot._pack` at archive granularity: the members for the given
paths from the working tree, in the order the paths are given. -/
def Snapshot.pack (fs : Fs) (files : List String) : Archive :=
  files.filterMap (fun p => (fsGet fs p).map (fun e => (p, e)))

/-- The `{hash, buffer}` result of `Snapshot.capture`. -/
structure CaptureRes where
  hash : String
  buffer : Archive
deriving DecidableEq

/-- Model of `Snapshot.capture` (root layer): `none` if the walked tree is empty,
else the archive of every entry with `hash = sha256(buffer)`. -/
def Snapshot.capture (fs : Fs) : Option CaptureRes :=
  let files := sortByPath fs
  if files.isEmpty then none
  else
    let buffer := Snapshot.pack fs (files.map (fun kv => kv.1))
    some { hash := sha256 (tarBytes buffer), buffer := buffer }

/-- The `{hash, buffer, changed, deleted}` result of `Snapshot.diff`. -/
structure DiffRes where
  hash : String
  buffer : Archive
  changed : List String
  deleted : List String
deriving DecidableEq

/-- Model of `Snapshot._stateFromLayer`: extract the one blob of the given hash
into a fresh scratch directory and fingerprint it; a missing or empty blob
yields the empty state. -/
def Snapshot.stateFromLayer (blobs : List (String × Archive)) (h : String) :
    List (String × String × Nat) :=
  match blobGet blobs h with
  | none => []
  | some a =>
    if a.isEmpty then []
    else stateOf (a.foldl (fun acc kv => fsSet acc kv.1 kv.2) [])

/-- Model of `Snapshot.diff`: fingerprint the working tree against the base layer
state; `changed` is the current-order list of new-or-differing paths,
`deleted` the base-order list of vanished paths; `none` when both are
empty; otherwise the blob is the archive of `changed` (the empty byte
string when `changed` is empty) and the hash covers the archive bytes
concatenated with the JSON of `deleted`. -/
def Snapshot.diff (blobs : List (String × Archive)) (fs : Fs) (baseHash : Option String) :
    Option DiffRes :=
  let current := stateOf fs
  let base := match baseHash with
    | some h => Snapshot.stateFromLayer blobs h
    | none => []
  let changed := current.filterMap (fun c =>
    match stateGet base c.1 with
    | none => some c.1
    | some prev => if prev.1 ≠ c.2.1 then some c.1 else none)
  let deleted := base.filterMap (fun b =>
    if (stateGet current b.1).isSome then none else some b.1)
  if changed.isEmpty && deleted.isEmpty then none
  else
    let buffer := if changed.isEmpty then [] else Snapshot.pack fs changed
    some { hash := sha256 (tarBytes buffer ++ strBytes (jsonStringifyStrList deleted)),
           buffer := buffer, changed := changed, deleted := deleted }

/-- Extraction of a decoded archive over a working tree: each member in
order creates or overwrites its path (`tar.extract`). -/
def restoreArchive (fs : Fs) (a : Archive) : Fs :=
  a.foldl (fun acc kv => fsSet acc kv.1 kv.2) fs

/-- Model of `Snapshot.restore`: read the blob; a missing or empty blob is a no-op;
otherwise untar it over the working tree. -/
def Snapshot.restore (blobs : List (String × Archive)) (fs : Fs) (h : String) : Fs :=
  match blobGet blobs h with
  | none => fs
  | some a => if a.isEmpty then fs else restoreArchive fs a

/-- Model of `Snapshot.rebuild`: delete the working tree, recreate it empty, and
restore each given layer in order; the result does not depend on the
previous working tree. -/
def Snapshot.rebuild (blobs : List (String × Archive)) (layers : List Layer) : Fs :=
  layers.foldl (fun fs l => Snapshot.restore blobs fs l.hash) []

/-! ## Engine (`StateKit`) -/

/-- The whole persistent-plus-working state one engine instance operates
on: the index document, the blob directory, the working directory. -/
structure Machine where
  index : Index
  blobs : List (String × Archive)
  workdir : Fs
deriving DecidableEq

/-- The result object of `StateKit.run` (the `short` display field, a
slice of `hash`, is omitted): `hash` is absent exactly when a rootless
run produced no entries. -/
structure RunRes where
  hash : Option String
  cached : Bool
  empty : Bool
deriving DecidableEq

/-- Outcome of `StateKit.run`: the returned object, or the thrown
`CommandFailed` error. -/
inductive RunResult where
  | ok (res : RunRes)
  | commandFailed
deriving DecidableEq

/-- Everything observable about one `run` call: its outcome, the machine
state afterwards, and whether a subprocess was spawned. -/
structure RunOut where
  result : RunResult
  machine : Machine
  spawned : Bool
deriving DecidableEq

/-- Model of `StateKit.run`.  The subprocess runner is the parameter `exec`,
mapping the working tree to the tree the command leaves behind plus its
success flag (`sh -c` exit status zero); `now` is the clock value recorded
in a committed layer.  On a cache hit the stored blob is restored and no
subprocess is spawned; on a miss the instruction runs, the delta (or the
root capture) is taken, and a non-empty result is stored and committed. -/
def StateKit.run (exec : Fs → Fs × Bool) (now : Nat) (instruction : String)
    (m : Machine) : RunOut :=
  let parent := m.index.head
  match Store.find m.index instruction parent with
  | some cachedL =>
    { result := .ok { hash := some cachedL.hash, cached := true, empty := false },
      machine := { m with workdir := Snapshot.restore m.blobs m.workdir cachedL.hash },
      spawned := false }
  | none =>
    let ex := exec m.workdir
    let m1 := { m with workdir := ex.1 }
    if ex.2 = false then
      { result := .commandFailed, machine := m1, spawned := true }
    else
      let snap : Option (String × Archive) :=
        match parent with
        | some _ => (Snapshot.diff m.blobs ex.1 parent).map (fun r => (r.hash, r.buffer))
        | none => (Snapshot.capture ex.1).map (fun r => (r.hash, r.buffer))
      match snap with
      | none =>
        { result := .ok { hash := parent, cached := false, empty := true },
          machine := m1, spawned := true }
      | some hb =>
        { result := .ok { hash := some hb.1, cached := false, empty := false },
          machine := { m1 with
            blobs := blobPut m1.blobs hb.1 hb.2,
            index := Store.commit m1.index hb.1 instruction parent now },
          spawned := true }

/-- The chain prefix ending at the first layer of the given hash:
`idx = chain.findIndex(l => l.hash === hash); chain.slice(0, idx + 1)`,
`none` when the hash is not on the chain (`findIndex` returned `-1`). -/
def chainPrefixTo (h : String) : List Layer → Option (List Layer)
  | [] => none
  | l :: rest =>
    if l.hash == h then some [l] else (chainPrefixTo h rest).map (fun s => l :: s)

/-- The errors `StateKit.checkout` can throw: an unresolvable ref, or a
resolved hash that is not on the current ancestry chain. -/
inductive CheckoutErr where
  | unresolvedRef
  | layerNotOnChain
deriving DecidableEq

/-- Model of `StateKit.checkout`: resolve the ref, locate the hash on the current
ancestry chain, rebuild the working tree from the chain prefix up to and
including it, and point head at it.  A ref that resolves to `null` finds
no chain position and fails like an off-chain hash. -/
def StateKit.checkout (ref : String) (m : Machine) : Except CheckoutErr Machine :=
  match Store.resolve m.index ref with
  | none => .error .unresolvedRef
  | some none => .error .layerNotOnChain
  | some (some h) =>
    match chainPrefixTo h (Store.ancestry m.index) with
    | none => .error .layerNotOnChain
    | some subset =>
      .ok { m with workdir := Snapshot.rebuild m.blobs subset,
                   index := { m.index with head := some h } }

/-- Model of `StateKit.rebuild`: rebuild the working tree from the full current
chain; returns the new machine and the chain length. -/
def StateKit.rebuild (m : Machine) : Machine × Nat :=
  let chain := Store.ancestry m.index
  ({ m with workdir := Snapshot.rebuild m.blobs chain }, chain.length)

/-- Model of `StateKit.history`: the current chain (the source decorates each layer
with display-only short hashes, which the model omits). -/
def StateKit.history (m : Machine) : List Layer := Store.ancestry m.index

/-- The canonical content of a layer: what `checkout`/`rebuild` of that
hash materializes — every blob of its ancestry chain restored in chain
order over an empty tree. -/
def layerContent (m : Machine) (h : String) : Fs :=
  Snapshot.rebuild m.blobs (Store.ancestryFrom m.index (some h))

/-! ## Spec-side definition for the cache-key claim -/

/-- The cache key as §3 of the spec words it, built by literal
concatenation: "SHA-256( canonical-json({instruction, parent}) )" where
canonical JSON is "object with exactly those two keys in that insertion
order, standard string escaping, no whitespace", and "`parent` is `null`
for a root lookup". -/
def specCacheKey (instruction : String) (parent : Option String) : String :=
  sha256 (strBytes
    ("\x7b" ++ jsonQuote "instruction" ++ ":" ++ jsonQuote instruction ++ "," ++
     jsonQuote "parent" ++ ":" ++
     (match parent with
      | some h => jsonQuote h
      | none => "null") ++ "\x7d"))

/-! ## Concrete states used by the witness theorems -/

/-- A root layer used by the witness states. -/
def wL0 : Layer := { hash := "h0", instruction := "c0", parent := none, time := 0 }

/-- A child layer of `wL0` used by the witness states. -/
def wL1 : Layer := { hash := "h1", instruction := "c1", parent := some "h0", time := 1 }

/-- A two-layer index whose head has been checked out to the root layer. -/
def wIdx : Index := { head := some "h0", layers := [wL0, wL1], tags := [] }

/-- Blobs for the two witness layers, plus an empty blob. -/
def wBlobs : List (String × Archive) :=
  [("h0", [("a.txt", .file [65] 420)]),
   ("h1", [("b.txt", .file [66] 420)]),
   ("he", [])]

/-- A machine sitting at the root layer with its content materialized. -/
def wMachine : Machine :=
  { index := wIdx, blobs := wBlobs, workdir := [("a.txt", .file [65] 420)] }

/-- A one-layer index used by the layer-creation witness. -/
def wIdx2 : Index := { head := some "h0", layers := [wL0], tags := [] }

/-- The machine the layer-creation witness runs on. -/
def wMachine2 : Machine :=
  { index := wIdx2, blobs := [("h0", [("a.txt", .file [65] 420)])],
    workdir := [("a.txt", .file [65] 420)] }

/-- The working tree the layer-creation witness instruction produces. -/
def wWd2 : Fs := [("b.txt", .file [66] 420)]

/-- The diff result the layer-creation witness produces. -/
def wRes2 : DiffRes :=
  { hash := sha256 (tarBytes [("b.txt", .file [66] 420)] ++
                    strBytes (jsonStringifyStrList ["a.txt"])),
    buffer := [("b.txt", .file [66] 420)],
    changed := ["b.txt"], deleted := ["a.txt"] }

/-- A fresh machine (no history) used by the failure and empty-run
witnesses. -/
def wMachine0 : Machine :=
  { index := { head := none, layers := [], tags := [] }, blobs := [],
    workdir := [("x.txt", .file [1] 420)] }

/-- An index whose layer list holds an entry not reachable from head. -/
def wIdx6 : Index :=
  { head := some "h0",
    layers := [wL0, { hash := "zz", instruction := "cx", parent := some "q", time := 3 }],
    tags := [] }

/-- The machine for the off-chain checkout witness. -/
def wMachine6 : Machine := { index := wIdx6, blobs := wBlobs, workdir := [] }

/-- An index with one tag, for the resolution-order witness. -/
def wTagIdx : Index := { head := none, layers := [], tags := [("v1", "h9")] }

/-- An index holding two layers whose hashes share the prefix "aa": the
ambiguous-prefix counterexample state. -/
def cIdx : Index :=
  { head := some "aa2",
    layers := [ { hash := "aa1", instruction := "x", parent := none, time := 0 },
                { hash := "aa2", instruction := "y", parent := some "aa1", time := 1 } ],
    tags := [] }

/-! ## Helper lemmas -/

theorem fsGet_fsSet_self (fs : Fs) (k : String) (e : FsEntry) :
    fsGet (fsSet fs k e) k = some e := by
  induction fs with
  | nil => simp [fsSet, fsGet]
  | cons kv rest ih =>
    by_cases h : kv.1 = k
    · simp [fsSet, fsGet, h]
    · simp [fsSet, fsGet, h, ih]

theorem fsGet_fsSet_ne (fs : Fs) (k p : String) (e : FsEntry) (hne : p ≠ k) :
    fsGet (fsSet fs k e) p = fsGet fs p := by
  induction fs with
  | nil => simp [fsSet, fsGet, Ne.symm hne]
  | cons kv rest ih =>
    by_cases h : kv.1 = k
    · subst h
      simp [fsSet, fsGet, Ne.symm hne]
    · simp [fsSet, fsGet, h, ih]

theorem fsHas_fsSet_of (fs : Fs) (k p : String) (e : FsEntry)
    (h : fsHas fs p = true) : fsHas (fsSet fs k e) p = true := by
  by_cases hp : p = k
  · subst hp; simp [fsHas, fsGet_fsSet_self]
  · simpa [fsHas, fsGet_fsSet_ne fs k p e hp] using h

theorem restoreArchive_has (a : Archive) (fs : Fs) (p : String)
    (h : fsHas fs p = true) : fsHas (restoreArchive fs a) p = true := by
  induction a generalizing fs with
  | nil => simpa [restoreArchive] using h
  | cons kv rest ih =>
    simpa [restoreArchive] using
      ih (fsSet fs kv.1 kv.2) (fsHas_fsSet_of fs kv.1 p kv.2 h)

theorem restoreArchive_get_of_not_mem (a : Archive) (fs : Fs) (q : String)
    (h : ∀ kv ∈ a, kv.1 ≠ q) :
    fsGet (restoreArchive fs a) q = fsGet fs q := by
  induction a generalizing fs with
  | nil => simp [restoreArchive]
  | cons kv rest ih =>
    have h1 : kv.1 ≠ q := h kv (by simp)
    have h2 : ∀ kv' ∈ rest, kv'.1 ≠ q := fun kv' hm => h kv' (by simp [hm])
    calc fsGet (restoreArchive (fsSet fs kv.1 kv.2) rest) q
        = fsGet (fsSet fs kv.1 kv.2) q := by
          simpa [restoreArchive] using ih (fsSet fs kv.1 kv.2) h2
      _ = fsGet fs q := fsGet_fsSet_ne fs kv.1 q kv.2 (Ne.symm h1)

theorem rebuild_append (blobs : List (String × Archive)) (c : List Layer) (l : Layer) :
    Snapshot.rebuild blobs (c ++ [l]) =
      Snapshot.restore blobs (Snapshot.rebuild blobs c) l.hash := by
  simp [Snapshot.rebuild, List.foldl_append]

theorem chainPrefixTo_eq_some (h : String) (c s : List Layer)
    (hs : chainPrefixTo h c = some s) :
    (∃ t, c = s ++ t) ∧ ∃ s0 lst, s = s0 ++ [lst] ∧ lst.hash = h := by
  induction c generalizing s with
  | nil => simp [chainPrefixTo] at hs
  | cons l rest ih =>
    simp only [chainPrefixTo] at hs
    split at hs
    case isTrue hl =>
      have hls : s = [l] := (Option.some.inj hs).symm
      subst hls
      exact ⟨⟨rest, rfl⟩, [], l, rfl, by simpa using hl⟩
    case isFalse hl =>
      match hms : chainPrefixTo h rest with
      | none => rw [hms] at hs; simp at hs
      | some s' =>
        rw [hms] at hs
        simp only [Option.map] at hs
        have hcons : l :: s' = s := Option.some.inj hs
        obtain ⟨⟨t, ht⟩, s0, lst, hs0, hlst⟩ := ih s' hms
        refine ⟨⟨t, ?_⟩, l :: s0, lst, ?_, hlst⟩
        · rw [← hcons, ht]; rfl
        · rw [← hcons, hs0]; rfl

/-! ## Claim theorems -/

/-- C4: on a cache hit `run` mutates only the workdir — the index head
keeps its pre-hit value, no layer is appended, no blob is written, and
tags are unchanged, for every store state in which the cache lookup
returns a layer; the returned result carries `cached = true` and the hit
layer's hash, and the workdir becomes the hit blob restored over it. -/
theorem run_cache_hit_mutates_only_workdir (exec : Fs → Fs × Bool) (now : Nat)
    (instruction : String) (m : Machine) (l : Layer)
    (hfind : Store.find m.index instruction m.index.head = some l) :
    (StateKit.run exec now instruction m).machine.index.head = m.index.head ∧
    (StateKit.run exec now instruction m).machine.index.layers = m.index.layers ∧
    (StateKit.run exec now instruction m).machine.index.tags = m.index.tags ∧
    (StateKit.run exec now instruction m).machine.blobs = m.blobs ∧
    (StateKit.run exec now instruction m).result =
      .ok { hash := some l.hash, cached := true, empty := false } ∧
    (StateKit.run exec now instruction m).machine.workdir =
      Snapshot.restore m.blobs m.workdir l.hash := by
  unfold StateKit.run
  simp [hfind]

/-- Witness for C4 at a concrete two-layer store whose cache lookup hits. -/
theorem run_cache_hit_mutates_only_workdir_check :
    (StateKit.run (fun fs => (fs, true)) 5 "c1" wMachine).machine.index.head =
      wMachine.index.head ∧
    (StateKit.run (fun fs => (fs, true)) 5 "c1" wMachine).machine.index.layers =
      wMachine.index.layers ∧
    (StateKit.run (fun fs => (fs, true)) 5 "c1" wMachine).machine.index.tags =
      wMachine.index.tags ∧
    (StateKit.run (fun fs => (fs, true)) 5 "c1" wMachine).machine.blobs =
      wMachine.blobs ∧
    (StateKit.run (fun fs => (fs, true)) 5 "c1" wMachine).result =
      .ok { hash := some wL1.hash, cached := true, empty := false } ∧
    (StateKit.run (fun fs => (fs, true)) 5 "c1" wMachine).machine.workdir =
      Snapshot.restore wMachine.blobs wMachine.workdir wL1.hash :=
  run_cache_hit_mutates_only_workdir (fun fs => (fs, true)) 5 "c1" wMachine wL1 (by decide)

/-- C1: if the cache lookup for `(instruction, parent)` at the current
head returns layer `l`, then `run` spawns no subprocess, restores `l`'s
blob into the workdir, and returns `cached = true` with `l`'s hash; when
the workdir held the materialized chain of `parent` and `l` extends that
chain, the workdir afterwards is exactly `l`'s canonical content. -/
theorem run_cache_hit_contract (exec : Fs → Fs × Bool) (now : Nat)
    (instruction p : String) (m : Machine) (l : Layer)
    (hhead : m.index.head = some p)
    (hfind : Store.find m.index instruction (some p) = some l)
    (hchain : Store.ancestryFrom m.index (some l.hash) =
              Store.ancestryFrom m.index (some p) ++ [l])
    (hwd : m.workdir = Snapshot.rebuild m.blobs (Store.ancestryFrom m.index (some p))) :
    StateKit.run exec now instruction m =
      { result := .ok { hash := some l.hash, cached := true, empty := false },
        machine := { m with workdir := Snapshot.restore m.blobs m.workdir l.hash },
        spawned := false } ∧
    (StateKit.run exec now instruction m).machine.workdir = layerContent m l.hash := by
  have hrun : StateKit.run exec now instruction m =
      { result := .ok { hash := some l.hash, cached := true, empty := false },
        machine := { m with workdir := Snapshot.restore m.blobs m.workdir l.hash },
        spawned := false } := by
    unfold StateKit.run
    rw [hhead]
    simp [hfind]
  refine ⟨hrun, ?_⟩
  rw [hrun]
  show Snapshot.restore m.blobs m.workdir l.hash = layerContent m l.hash
  rw [hwd, ← rebuild_append, ← hchain, layerContent]

/-- Witness for C1: a machine checked out to the root layer whose cache
holds the child layer. -/
theorem run_cache_hit_contract_check :
    StateKit.run (fun fs => (fs, true)) 5 "c1" wMachine =
      { result := .ok { hash := some wL1.hash, cached := true, empty := false },
        machine := { wMachine with
          workdir := Snapshot.restore wMachine.blobs wMachine.workdir wL1.hash },
        spawned := false } ∧
    (StateKit.run (fun fs => (fs, true)) 5 "c1" wMachine).machine.workdir =
      layerContent wMachine wL1.hash :=
  run_cache_hit_contract (fun fs => (fs, true)) 5 "c1" "h0" wMachine wL1
    (by decide) (by decide) (by decide) (by decide)

/-- C3: when the cache misses and the subprocess exits non-zero, `run`
fails with the command-failure error and records no layer — for every
starting store state the index (layers, head, tags) and the blob store
are exactly as before the call, and the history length is unchanged; only
the workdir is as the subprocess left it. -/
theorem run_command_failure_preserves_store (exec : Fs → Fs × Bool) (now : Nat)
    (instruction : String) (m : Machine) (wd : Fs)
    (hfind : Store.find m.index instruction m.index.head = none)
    (hexec : exec m.workdir = (wd, false)) :
    StateKit.run exec now instruction m =
      { result := .commandFailed, machine := { m with workdir := wd }, spawned := true } ∧
    (StateKit.run exec now instruction m).machine.index = m.index ∧
    (StateKit.run exec now instruction m).machine.blobs = m.blobs ∧
    (StateKit.history (StateKit.run exec now instruction m).machine).length =
      (StateKit.history m).length := by
  have hrun : StateKit.run exec now instruction m =
      { result := .commandFailed, machine := { m with workdir := wd },
        spawned := true } := by
    unfold StateKit.run
    simp [hfind, hexec]
  exact ⟨hrun, by rw [hrun], by rw [hrun], by rw [hrun]; rfl⟩

/-- Witness for C3 on a fresh machine whose instruction fails. -/
theorem run_command_failure_preserves_store_check :
    StateKit.run (fun fs => (fs, false)) 9 "exit 1" wMachine0 =
      { result := .commandFailed,
        machine := { wMachine0 with workdir := wMachine0.workdir }, spawned := true } ∧
    (StateKit.run (fun fs => (fs, false)) 9 "exit 1" wMachine0).machine.index =
      wMachine0.index ∧
    (StateKit.run (fun fs => (fs, false)) 9 "exit 1" wMachine0).machine.blobs =
      wMachine0.blobs ∧
    (StateKit.history
        (StateKit.run (fun fs => (fs, false)) 9 "exit 1" wMachine0).machine).length =
      (StateKit.history wMachine0).length :=
  run_command_failure_preserves_store (fun fs => (fs, false)) 9 "exit 1" wMachine0
    wMachine0.workdir (by decide) (by decide)

/-- C10: on an engine with no head and empty history, when the
instruction succeeds but leaves the workdir without entries, `run`
returns `cached = false`, `empty = true` and an absent hash — not an
error — and appends no layer and writes no blob. -/
theorem run_empty_root_result (exec : Fs → Fs × Bool) (now : Nat)
    (instruction : String) (m : Machine)
    (hhead : m.index.head = none)
    (hlayers : m.index.layers = [])
    (hexec : exec m.workdir = ([], true)) :
    StateKit.run exec now instruction m =
      { result := .ok { hash := none, cached := false, empty := true },
        machine := { m with workdir := [] }, spawned := true } ∧
    (StateKit.run exec now instruction m).machine.index = m.index ∧
    (StateKit.run exec now instruction m).machine.blobs = m.blobs := by
  have hfind : Store.find m.index instruction none = none := by
    simp [Store.find, hlayers]
  have hrun : StateKit.run exec now instruction m =
      { result := .ok { hash := none, cached := false, empty := true },
        machine := { m with workdir := [] }, spawned := true } := by
    unfold StateKit.run
    simp [hhead, hfind, hexec, Snapshot.capture, sortByPath]
  exact ⟨hrun, by rw [hrun], by rw [hrun]⟩

/-- Witness for C10 on a fresh machine whose instruction empties the
workdir. -/
theorem run_empty_root_result_check :
    StateKit.run (fun _ => ([], true)) 9 "true" wMachine0 =
      { result := .ok { hash := none, cached := false, empty := true },
        machine := { wMachine0 with workdir := [] }, spawned := true } ∧
    (StateKit.run (fun _ => ([], true)) 9 "true" wMachine0).machine.index =
      wMachine0.index ∧
    (StateKit.run (fun _ => ([], true)) 9 "true" wMachine0).machine.blobs =
      wMachine0.blobs :=
  run_empty_root_result (fun _ => ([], true)) 9 "true" wMachine0
    (by decide) (by decide) (by decide)

/-- C9: rebuild is idempotent — for every store state, rebuilding and
then rebuilding again yields the same machine, in particular the same
(byte-identical) workdir tree, since rebuild discards the old workdir and
replays the same ancestry chain from the same blobs. -/
theorem rebuild_idempotent (m : Machine) :
    StateKit.rebuild (StateKit.rebuild m).1 = StateKit.rebuild m ∧
    (StateKit.rebuild (StateKit.rebuild m).1).1.workdir =
      (StateKit.rebuild m).1.workdir := by
  constructor <;> rfl

/-- C2: when a non-root layer is created (head is `some p`, the cache
misses, the instruction succeeds, and the diff is non-empty), the layer's
hash is the SHA-256 of the TAR archive of the changed paths (the empty
byte string when no path changed) concatenated with the JSON encoding of
the deleted-path list, while the blob stored for the layer is the archive
alone — the deleted list enters the hash but is never persisted. -/
theorem run_layer_identity (exec : Fs → Fs × Bool) (now : Nat)
    (instruction p : String) (m : Machine) (wd : Fs) (res : DiffRes)
    (hhead : m.index.head = some p)
    (hfind : Store.find m.index instruction (some p) = none)
    (hexec : exec m.workdir = (wd, true))
    (hdiff : Snapshot.diff m.blobs wd (some p) = some res) :
    res.hash = sha256 (tarBytes res.buffer ++ strBytes (jsonStringifyStrList res.deleted)) ∧
    res.buffer = (if res.changed.isEmpty then [] else Snapshot.pack wd res.changed) ∧
    StateKit.run exec now instruction m =
      { result := .ok { hash := some res.hash, cached := false, empty := false },
        machine := { m with
                     workdir := wd,
                     blobs := blobPut m.blobs res.hash res.buffer,
                     index := Store.commit m.index res.hash instruction (some p) now },
        spawned := true } := by
  have hfields := hdiff
  simp only [Snapshot.diff] at hfields
  split at hfields
  · exact absurd hfields (by simp)
  · have hres := Option.some.inj hfields
    subst hres
    refine ⟨by simp, by simp, ?_⟩
    unfold StateKit.run
    simp [hhead, hfind, hexec, hdiff]

/-- Witness for C2: a machine at a one-layer head whose instruction
replaces the tree, producing one changed and one deleted path. -/
theorem run_layer_identity_check :
    wRes2.hash =
      sha256 (tarBytes wRes2.buffer ++ strBytes (jsonStringifyStrList wRes2.deleted)) ∧
    wRes2.buffer =
      (if wRes2.changed.isEmpty then [] else Snapshot.pack wWd2 wRes2.changed) ∧
    StateKit.run (fun _ => (wWd2, true)) 7 "swap" wMachine2 =
      { result := .ok { hash := some wRes2.hash, cached := false, empty := false },
        machine := { wMachine2 with
                     workdir := wWd2,
                     blobs := blobPut wMachine2.blobs wRes2.hash wRes2.buffer,
                     index := Store.commit wMachine2.index wRes2.hash "swap"
                                (some "h0") 7 },
        spawned := true } :=
  run_layer_identity (fun _ => (wWd2, true)) 7 "swap" "h0" wMachine2 wWd2 wRes2
    (by decide) (by decide) (by decide) (by decide)

/-- C8: for every `(instruction, parent)` pair the cache key equals the
SHA-256 of the canonical JSON object with exactly the keys `instruction`
and `parent` in that insertion order (standard escaping, no whitespace,
`parent` null for a root lookup); the key is a pure function of the pair
alone — it reads neither clock nor store — so two computations yield
identical bytes. -/
theorem cache_key_canonical_json (instruction : String) (parent : Option String) :
    Store.key instruction parent = specCacheKey instruction parent := by
  cases parent <;>
    simp [Store.key, specCacheKey, jsonStringifyFlatObj, jsonMember, joinComma,
          String.append_assoc]

/-- C5: restoring a single layer standalone cannot remove files — for
every working tree, blob store and layer hash, every path present before
`restore` is present after; paths outside the layer's blob are untouched;
and a missing or empty blob makes `restore` a no-op.  Deletions recorded
by a layer are therefore only realized by a full rebuild from the root. -/
theorem restore_standalone_never_deletes (blobs : List (String × Archive))
    (fs : Fs) (h : String) :
    (∀ p, fsHas fs p = true → fsHas (Snapshot.restore blobs fs h) p = true) ∧
    (∀ q, (∀ a, blobGet blobs h = some a → ∀ kv ∈ a, kv.1 ≠ q) →
        fsGet (Snapshot.restore blobs fs h) q = fsGet fs q) ∧
    (blobGet blobs h = none → Snapshot.restore blobs fs h = fs) ∧
    (blobGet blobs h = some [] → Snapshot.restore blobs fs h = fs) := by
  refine ⟨?_, ?_, ?_, ?_⟩
  · intro p hp
    unfold Snapshot.restore
    match hb : blobGet blobs h with
    | none => exact hp
    | some a =>
      by_cases he : a.isEmpty
      · simpa [he] using hp
      · simpa [he] using restoreArchive_has a fs p hp
  · intro q hq
    unfold Snapshot.restore
    match hb : blobGet blobs h with
    | none => rfl
    | some a =>
      by_cases he : a.isEmpty
      · simp [he]
      · simpa [he] using restoreArchive_get_of_not_mem a fs q (hq a hb)
  · intro hb
    simp [Snapshot.restore, hb]
  · intro hb
    simp [Snapshot.restore, hb]

/-- Witness for C5 at a concrete tree and blob store: a present path
survives the restore, an outside path is untouched, and the missing and
empty blobs are no-ops. -/
theorem restore_standalone_never_deletes_check :
    fsHas (Snapshot.restore wBlobs [("keep.txt", .file [75] 420)] "h1") "keep.txt" =
      true ∧
    fsGet (Snapshot.restore wBlobs [("keep.txt", .file [75] 420)] "h1") "other.txt" =
      fsGet [("keep.txt", .file [75] 420)] "other.txt" ∧
    Snapshot.restore wBlobs [("keep.txt", .file [75] 420)] "nope" =
      [("keep.txt", .file [75] 420)] ∧
    Snapshot.restore wBlobs [("keep.txt", .file [75] 420)] "he" =
      [("keep.txt", .file [75] 420)] :=
  ⟨(restore_standalone_never_deletes wBlobs [("keep.txt", .file [75] 420)] "h1").1
      "keep.txt" (by decide),
   (restore_standalone_never_deletes wBlobs [("keep.txt", .file [75] 420)] "h1").2.1
      "other.txt" (by
        intro a ha
        have hb : blobGet wBlobs "h1" = some [("b.txt", FsEntry.file [66] 420)] := by
          decide
        rw [hb] at ha
        have hae : a = [("b.txt", FsEntry.file [66] 420)] := (Option.some.inj ha).symm
        subst hae
        decide),
   (restore_standalone_never_deletes wBlobs [("keep.txt", .file [75] 420)] "nope").2.2.1
      (by decide),
   (restore_standalone_never_deletes wBlobs [("keep.txt", .file [75] 420)] "he").2.2.2
      (by decide)⟩

/-- C6: `checkout` resolves the ref to a hash; when that hash is not on
the current ancestry chain it fails with the layer-not-on-chain error,
and otherwise it rebuilds the workdir from the chain prefix from the root
up to and including the layer with that hash (in chain order), sets head
to exactly that hash, and leaves layers and blobs unchanged. -/
theorem checkout_contract (ref hsh : String) (m : Machine)
    (hres : Store.resolve m.index ref = some (some hsh)) :
    (chainPrefixTo hsh (Store.ancestry m.index) = none →
       StateKit.checkout ref m = .error .layerNotOnChain) ∧
    (∀ subset, chainPrefixTo hsh (Store.ancestry m.index) = some subset →
       StateKit.checkout ref m =
         .ok { m with workdir := Snapshot.rebuild m.blobs subset,
                      index := { m.index with head := some hsh } } ∧
       (∃ t, Store.ancestry m.index = subset ++ t) ∧
       (∃ s0 lst, subset = s0 ++ [lst] ∧ lst.hash = hsh)) := by
  constructor
  · intro hnone
    unfold StateKit.checkout
    simp [hres, hnone]
  · intro subset hsome
    refine ⟨?_, (chainPrefixTo_eq_some hsh _ subset hsome).1,
              (chainPrefixTo_eq_some hsh _ subset hsome).2⟩
    unfold StateKit.checkout
    simp [hres, hsome]

/-- Witness for C6: a successful checkout of the root layer and a failed
checkout of a layer that the index lists but the chain does not reach. -/
theorem checkout_contract_check :
    StateKit.checkout "h0" wMachine =
      .ok { wMachine with
            workdir := Snapshot.rebuild wMachine.blobs [wL0],
            index := { wMachine.index with head := some "h0" } } ∧
    StateKit.checkout "zz" wMachine6 = .error .layerNotOnChain :=
  ⟨((checkout_contract "h0" "h0" wMachine (by decide)).2 [wL0] (by decide)).1,
   (checkout_contract "zz" "zz" wMachine6 (by decide)).1 (by decide)⟩

/-- C7 counterexample: the claim demands that a prefix matching several
layers be reported as ambiguous (an unresolved-ref failure), but on a
store holding two distinct layers whose hashes both start with "aa", the
source's resolution returns the first match in list order instead of
failing. -/
theorem resolve_ambiguous_prefix_cex :
    strStartsWith "aa1" "aa" = true ∧ strStartsWith "aa2" "aa" = true ∧
    ("aa1" : String) ≠ "aa2" ∧
    Store.resolve cIdx "aa" = some (some "aa1") ∧
    Store.resolve cIdx "aa" ≠ none := by
  refine ⟨by decide, by decide, by decide, by decide, by decide⟩

/-- C7 amended: for every non-empty ref, resolution tries the tag mapping
first (a tag bound to a non-empty hash wins), then the first layer in
list order whose hash has the ref as a prefix (any length at least one),
then an exact hash match, and fails with the unresolved-ref error when
none match; a prefix matching several layers is not detected as ambiguous
— it resolves to the first matching layer in list order. -/
theorem resolve_resolution_order (idx : Index) (ref : String) (hne : ref ≠ "") :
    (∀ v, tagLookup idx.tags ref = some v → v ≠ "" →
        Store.resolve idx ref = some (some v)) ∧
    ((∀ v, tagLookup idx.tags ref = some v → v = "") →
      ∀ l, idx.layers.find? (fun l => strStartsWith l.hash ref) = some l →
        Store.resolve idx ref = some (some l.hash)) ∧
    ((∀ v, tagLookup idx.tags ref = some v → v = "") →
      idx.layers.find? (fun l => strStartsWith l.hash ref) = none →
      idx.layers.find? (fun l => l.hash == ref) = none →
      Store.resolve idx ref = none) := by
  refine ⟨?_, ?_, ?_⟩
  · intro v hv hnz
    simp [Store.resolve, hne, hv, hnz]
  · intro htags l hl
    unfold Store.resolve
    rw [if_neg hne]
    match ht : tagLookup idx.tags ref with
    | some v =>
      have hv : v = "" := htags v ht
      subst hv
      simp [Store.resolveLayers, hl]
    | none =>
      simp [Store.resolveLayers, hl]
  · intro htags hpre hexact
    unfold Store.resolve
    rw [if_neg hne]
    match ht : tagLookup idx.tags ref with
    | some v =>
      have hv : v = "" := htags v ht
      subst hv
      simp [Store.resolveLayers, hpre, hexact]
    | none =>
      simp [Store.resolveLayers, hpre, hexact]

/-- Witness for the amended C7 at concrete stores: a tag wins, an
ambiguous prefix resolves to the first match in list order, and an
unmatched ref is the unresolved-ref failure. -/
theorem resolve_resolution_order_check :
    Store.resolve wTagIdx "v1" = some (some "h9") ∧
    Store.resolve cIdx "aa" = some (some "aa1") ∧
    Store.resolve cIdx "qq" = none :=
  ⟨(resolve_resolution_order wTagIdx "v1" (by decide)).1 "h9" (by decide) (by decide),
   (resolve_resolution_order cIdx "aa" (by decide)).2.1
      (by
        intro v hv
        rw [show tagLookup cIdx.tags "aa" = none from by decide] at hv
        exact Option.noConfusion hv)
      { hash := "aa1", instruction := "x", parent := none, time := 0 } (by decide),
   (resolve_resolution_order cIdx "qq" (by decide)).2.2
      (by
        intro v hv
        rw [show tagLookup cIdx.tags "qq" = none from by decide] at hv
        exact Option.noConfusion hv)
      (by decide) (by decide)⟩
